import Mathlib

/-!
Verification of the gmail-attachments pipeline (`service.go`, `mail.go`).

The development shallowly embeds the repository's data model and its
attachment-extraction pipeline:

* `MessagePart` / `Message` mirror the `gmail.MessagePart` / `gmail.Message`
  values the code manipulates (a summary message has `payload = none`,
  matching a nil `Payload` pointer).
* `Env` packages the external collaborators (the remote mail service calls,
  the base64 decoder from the standard library, and the pluggable sink).
  Every remote mail-service call made by the code is recorded in a `Call`
  trace so that call-count properties can be stated.
* `retrieveAttachment`, `constructFilename`, `processAttachment`,
  `retrieveMessageAttachments`, `markAsRead`, `ProcessPDFAttachments` and
  `ProcessedAttachments.Close` are direct translations of the functions of
  the same names in `mail.go` and `service.go`.  Go's in-place mutation of
  `part.Body` is rendered by returning the updated part value; a nil-pointer
  dereference is rendered by the `RunResult.nilDeref` outcome.
-/

/-- `gmail.MessagePartBody`: either inline base64url data, or a remote
attachment identifier that requires a secondary fetch. -/
structure MessagePartBody where
  attachmentId : String
  data : String
deriving DecidableEq, Repr

/-- `gmail.MessagePart`: a node of the MIME part tree.  `parts` is the ordered
sequence of child parts. -/
inductive MessagePart where
  | mk (mimeType : String) (filename : String) (partId : String)
      (body : MessagePartBody) (parts : List MessagePart)

/-- Content type of a part (`part.MimeType`). -/
def MessagePart.mimeType : MessagePart → String
  | .mk mt _ _ _ _ => mt

/-- Original filename of a part (`part.Filename`). -/
def MessagePart.filename : MessagePart → String
  | .mk _ fn _ _ _ => fn

/-- Part identifier (`part.PartId`). -/
def MessagePart.partId : MessagePart → String
  | .mk _ _ pid _ _ => pid

/-- Body reference of a part (`part.Body`). -/
def MessagePart.body : MessagePart → MessagePartBody
  | .mk _ _ _ b _ => b

/-- Ordered children of a part (`part.Parts`). -/
def MessagePart.parts : MessagePart → List MessagePart
  | .mk _ _ _ _ ps => ps

/-- `gmail.Message`: `payload = none` models a nil `Payload` pointer, which is
what the listing call returns (a summary). -/
structure Message where
  id : String
  snippet : String
  payload : Option MessagePart

/-- A writable resource produced by the `WriterGenerator` sink.  `closable`
records whether the underlying value also implements `io.Closer`, and
`closeErr` the error that a `Close()` call on it returns (`none` = nil). -/
structure BodyHandle where
  handleId : Nat
  closable : Bool
  closeErr : Option String
deriving DecidableEq, Repr

/-- `ProcessedAttachment` from `service.go`: the synthesized filename and the
handle of the written content. -/
structure ProcessedAttachment where
  body : BodyHandle
  filename : String
deriving DecidableEq, Repr

/-- `ProcessedAttachments`, a slice of `ProcessedAttachment`. -/
abbrev ProcessedAttachments := List ProcessedAttachment

/-- One remote call against the Mail Service. -/
inductive Call where
  | listMsgs
  | getMsg (msgId : String)
  | getAtt (msgId : String) (attachmentId : String)
  | batchModify (ids : List String)
deriving DecidableEq, Repr

/-- The external collaborators of the pipeline: the four Mail Service
endpoints, the standard-library base64url decoder, and the pluggable sink
(`WriterGenerator` plus the write on the resource it returns). -/
structure Env where
  listMessages : Except String (List Message)
  getMessage : String → Except String Message
  getAttachment : String → String → Except String MessagePartBody
  batchModify : List String → Except String Unit
  decodeB64 : String → Except String (List Nat)
  writerGen : String → Except String BodyHandle
  write : BodyHandle → List Nat → Option String

/-- `retrieveAttachment` (`mail.go`): if the body carries a non-empty
`AttachmentId`, fetch it remotely; otherwise the inline body is used as-is.
The second component records the remote fetches issued. -/
def retrieveAttachment (env : Env) (msg : Message) (body : MessagePartBody) :
    Except String MessagePartBody × List Call :=
  if body.attachmentId ≠ "" then
    (env.getAttachment msg.id body.attachmentId, [.getAtt msg.id body.attachmentId])
  else
    (.ok body, [])

/-- `constructFilename` (`mail.go`):
`fmt.Sprintf("%s-%s-%s.pdf", part.Filename, msg.Id, part.PartId)`. -/
def constructFilename (part : MessagePart) (msg : Message) : String :=
  part.filename ++ "-" ++ msg.id ++ "-" ++ part.partId ++ ".pdf"

/-- `Service.processAttachment` (`service.go`): open a writer for the
synthesized filename, base64url-decode the part's (already resolved) body
data, write it, and return the `ProcessedAttachment`. -/
def processAttachment (env : Env) (msg : Message) (part : MessagePart) :
    Except String ProcessedAttachment :=
  let filename := constructFilename part msg
  match env.writerGen filename with
  | .error e => .error e
  | .ok f =>
    match env.decodeB64 part.body.data with
    | .error e => .error e
    | .ok fileContent =>
      match env.write f fileContent with
      | some e => .error e
      | none => .ok ⟨f, filename⟩

mutual

/-- `Service.retrieveMessageAttachments` (`service.go`) on a non-nil part:
a part whose content type is `application/pdf` is resolved and returned as a
singleton (with its body replaced by the resolved body, mirroring the
in-place assignment `part.Body = body`); otherwise the children are walked
and each child's result is appended only when that child returned a nil
error (`if err == nil`), and the loop returns a nil error. -/
def retrieveMessageAttachmentsPart (env : Env) (msg : Message) :
    MessagePart → (List MessagePart × Option String) × List Call
  | .mk mt fn pid b children =>
    if mt = "application/pdf" then
      let r := retrieveAttachment env msg b
      match r.1 with
      | .error e => (([], some e), r.2)
      | .ok b2 => (([.mk mt fn pid b2 children], none), r.2)
    else
      let r := retrieveMessageAttachmentsList env msg children
      ((r.1, none), r.2)

/-- The `for _, part := range part.Parts` loop inside
`Service.retrieveMessageAttachments`. -/
def retrieveMessageAttachmentsList (env : Env) (msg : Message) :
    List MessagePart → List MessagePart × List Call
  | [] => ([], [])
  | c :: cs =>
    let r := retrieveMessageAttachmentsPart env msg c
    let rest := retrieveMessageAttachmentsList env msg cs
    ((if r.1.2 = none then r.1.1 else []) ++ rest.1, r.2 ++ rest.2)

end

/-- `Service.retrieveMessageAttachments` as called with the possibly-nil
`msg.Payload` pointer: on a nil part the very first field access
`part.MimeType` dereferences a nil pointer, modelled by `none`. -/
def retrieveMessageAttachments (env : Env) (msg : Message) :
    Option MessagePart → Option ((List MessagePart × Option String) × List Call)
  | none => none
  | some part => some (retrieveMessageAttachmentsPart env msg part)

/-- The inner `for _, p := range parts` loop of `ProcessPDFAttachments`:
process each part in walk order; on the first failure jump back to the outer
loop (`continue OUTER`), keeping the attachments decoded so far but flagging
the message as not fully processed. -/
def processParts (env : Env) (msg : Message) :
    List MessagePart → List ProcessedAttachment × Bool
  | [] => ([], true)
  | p :: ps =>
    match processAttachment env msg p with
    | .ok att =>
      let (rest, ok) := processParts env msg ps
      (att :: rest, ok)
    | .error _ => ([], false)

/-- One iteration of the `OUTER` loop of `ProcessPDFAttachments`.

The source first runs
`if msg, err := retrieveMessage(srv.srv, srv.UserID, msg.Id); err == nil
\x7b msgs[i] = msg \x7d`; the `if`-scoped `msg` shadows the loop variable, so
the fetched (hydrated) message is stored into the slice slot that this
iteration has already read and is never used again — only the `Get` call
itself is observable, hence only the call is recorded here.  The rest of the
iteration then runs on the original listed `msg`; in particular
`retrieveMessageAttachments(msg, msg.Payload)` dereferences a nil payload.
Result `none` models that nil-pointer panic; otherwise the result carries
the attachments decoded for this message and whether the message was
appended to `processedMsgs`. -/
def processOneMessage (env : Env) (msg : Message) :
    Option (List ProcessedAttachment × Bool) × List Call :=
  let getCall : List Call := [.getMsg msg.id]
  match retrieveMessageAttachments env msg msg.payload with
  | none => (none, getCall)
  | some ((parts, err), rmaCalls) =>
    match err with
    | some _ => (some ([], false), getCall ++ rmaCalls)
    | none => (some (processParts env msg parts), getCall ++ rmaCalls)

/-- The `OUTER` loop of `ProcessPDFAttachments` over the listed messages,
accumulating the run's attachment output and the `processedMsgs` slice.
`none` propagates a nil-pointer panic, together with the remote calls made
up to that point. -/
def runLoop (env : Env) :
    List Message → Option (List ProcessedAttachment × List Message) × List Call
  | [] => (some ([], []), [])
  | m :: ms =>
    match processOneMessage env m with
    | (none, cs) => (none, cs)
    | (some (atts, keep), cs) =>
      match runLoop env ms with
      | (none, cs') => (none, cs ++ cs')
      | (some (atts', kept'), cs') =>
        (some (atts ++ atts', (if keep then [m] else []) ++ kept'), cs ++ cs')

/-- `markAsRead` (`mail.go`): one `BatchModify` mutation removing the
`UNREAD` label from all the given messages' identifiers. -/
def markAsRead (env : Env) (msgs : List Message) : Option String × List Call :=
  let msgIds := msgs.map Message.id
  (match env.batchModify msgIds with
   | .ok _ => none
   | .error e => some e,
   [.batchModify msgIds])

/-- Outcome of one `ProcessPDFAttachments` run: either a nil-pointer panic,
or the returned attachments and error, each together with the trace of
remote Mail Service calls issued. -/
inductive RunResult where
  | nilDeref (calls : List Call)
  | done (atts : List ProcessedAttachment) (err : Option String) (calls : List Call)
deriving DecidableEq, Repr

/-- `Service.ProcessPDFAttachments` (`service.go`): list the messages, run
the `OUTER` loop, and — when `markRead` is set — call `markAsRead` on the
fully processed messages.  The source discards `markAsRead`'s return value
and always returns a nil error after the loop, which is mirrored by the
final `none` error component. -/
def ProcessPDFAttachments (env : Env) (markRead : Bool) : RunResult :=
  match env.listMessages with
  | .error e => .done [] (some e) [.listMsgs]
  | .ok msgs =>
    match runLoop env msgs with
    | (none, cs) => .nilDeref ([.listMsgs] ++ cs)
    | (some (atts, kept), cs) =>
      let markCalls := if markRead then (markAsRead env kept).2 else []
      .done atts none ([.listMsgs] ++ cs ++ markCalls)

/-- The body of the loop in `ProcessedAttachments.Close` (`service.go`):
if the attachment's body also implements `io.Closer`, call `Close()` on it
(recorded in the second component), and remember its error only when it is
the first one (`if er != nil && err == nil`). -/
def closeStep (acc : Option String × List Nat) (a : ProcessedAttachment) :
    Option String × List Nat :=
  if a.body.closable then
    ((if a.body.closeErr.isSome ∧ acc.1 = none then a.body.closeErr else acc.1),
     acc.2 ++ [a.body.handleId])
  else acc

/-- `ProcessedAttachments.Close` (`service.go`): for each attachment whose
body also implements `io.Closer`, call `Close()`, returning the first error
(`none` if no close failed).  The second component records, in order, the
handles on which `Close()` was invoked. -/
def ProcessedAttachments.Close (ats : ProcessedAttachments) : Option String × List Nat :=
  ats.foldl closeStep (none, [])

/-! ### Specification-side definitions

`specMatches` follows the spec's words for the Walker contract
(§4.1 / §8): the ordered sequence of matching parts, pre-order, depth-first,
left-to-right by the sequence of child parts, with matching terminal.  Each
match is paired with its path (the list of child indices from the root), so
that order and the no-descendant property can be stated positionally. -/

mutual

/-- Modelled from the spec: pre-order, depth-first, left-to-right matches of
content type `t`, paired with their child-index paths; a matching part is
never itself descended into. -/
def specMatches (t : String) : MessagePart → List (List Nat × MessagePart)
  | .mk mt fn pid b children =>
    if mt = t then [([], .mk mt fn pid b children)]
    else specMatchesFrom t 0 children

/-- Matches of a forest of sibling subtrees, whose first sibling has child
index `i`. -/
def specMatchesFrom (t : String) (i : Nat) : List MessagePart → List (List Nat × MessagePart)
  | [] => []
  | c :: cs => (specMatches t c).map (fun x => (i :: x.1, x.2)) ++ specMatchesFrom t (i + 1) cs

end

/-- The subtree of a part at a child-index path, if the path is valid. -/
def subtreeAt : MessagePart → List Nat → Option MessagePart
  | p, [] => some p
  | .mk _ _ _ _ children, i :: rest =>
    match children[i]? with
    | some c => subtreeAt c rest
    | none => none

/-- A matched part after the Resolver ran on it: its body is replaced by the
successfully fetched body when a remote fetch was required, and kept as-is
otherwise (mirroring `part.Body = body`). -/
def resolvePart (env : Env) (msg : Message) : MessagePart → MessagePart
  | .mk mt fn pid b children =>
    match (retrieveAttachment env msg b).1 with
    | .ok b2 => .mk mt fn pid b2 children
    | .error _ => .mk mt fn pid b children

/-- Whether an `Except` value is a success. -/
def isOkB {α : Type} : Except String α → Bool
  | .ok _ => true
  | .error _ => false

/-- The ordering in which the returned matches must appear (pre-order,
depth-first, left-to-right), expressed on paths: strictly lexicographically
increasing, and no path a prefix of a later one (no returned part is a
descendant of another returned part). -/
def PreOrder (π₁ π₂ : List Nat) : Prop :=
  List.Lex (· < ·) π₁ π₂ ∧ ¬ π₁ <+: π₂

/-- Structural induction for `MessagePart` with the child hypothesis
quantified over list membership. -/
theorem MessagePart.inductionOn {motive : MessagePart → Prop}
    (h : ∀ mt fn pid b children,
      (∀ c ∈ children, motive c) → motive (.mk mt fn pid b children)) :
    ∀ p, motive p
  | .mk mt fn pid b children =>
    h mt fn pid b children (fun c _ => MessagePart.inductionOn h c)
termination_by p => sizeOf p
decreasing_by
  rename_i hc
  have := List.sizeOf_lt_of_mem hc
  simp only [MessagePart.mk.sizeOf_spec]
  omega

/-! ### Helper lemmas -/

/-- The close trace: every closable attachment's handle is closed exactly
once, in order, regardless of earlier errors. -/
theorem closeFoldl_trace (ats : List ProcessedAttachment) :
    ∀ e tr, (ats.foldl closeStep (e, tr)).2 =
      tr ++ (ats.filter fun a => a.body.closable).map fun a => a.body.handleId := by
  induction ats with
  | nil => intro e tr; simp
  | cons a ats ih =>
    intro e tr
    cases hcl : a.body.closable with
    | false => simp [List.foldl_cons, closeStep, hcl, ih, List.filter_cons]
    | true => simp [List.foldl_cons, closeStep, hcl, ih, List.filter_cons]

/-- Once an error has been recorded, later closes never replace it. -/
theorem closeFoldl_err_some (ats : List ProcessedAttachment) :
    ∀ x tr, (ats.foldl closeStep (some x, tr)).1 = some x := by
  induction ats with
  | nil => intro x tr; simp
  | cons a ats ih =>
    intro x tr
    cases hcl : a.body.closable with
    | false => simp [List.foldl_cons, closeStep, hcl, ih]
    | true => simp [List.foldl_cons, closeStep, hcl, ih]

/-- Starting from no error, the fold returns the first close error of a
closable attachment. -/
theorem closeFoldl_err_none (ats : List ProcessedAttachment) :
    ∀ tr, (ats.foldl closeStep (none, tr)).1 =
      ((ats.filter fun a => a.body.closable).filterMap fun a => a.body.closeErr).head? := by
  induction ats with
  | nil => intro tr; simp
  | cons a ats ih =>
    intro tr
    cases hcl : a.body.closable with
    | false => simp [List.foldl_cons, closeStep, hcl, ih, List.filter_cons]
    | true =>
      cases hce : a.body.closeErr with
      | none => simp [List.foldl_cons, closeStep, hcl, hce, ih, List.filter_cons]
      | some er =>
        simp [List.foldl_cons, closeStep, hcl, hce, List.filter_cons,
          closeFoldl_err_some]

/-- The `for` loop of `retrieveMessageAttachments` concatenates, in order,
the matches of exactly those child subtrees that returned a nil error. -/
theorem retrieveMessageAttachmentsList_eq_join (env : Env) (msg : Message) :
    ∀ cs : List MessagePart,
      (retrieveMessageAttachmentsList env msg cs).1 =
        (cs.map fun c =>
          if (retrieveMessageAttachmentsPart env msg c).1.2 = none
          then (retrieveMessageAttachmentsPart env msg c).1.1 else []).flatten := by
  intro cs
  induction cs with
  | nil => simp [retrieveMessageAttachmentsList]
  | cons c cs ih => simp [retrieveMessageAttachmentsList, ih]

/-! ### Concrete scenario environments used by individual claims -/

/-- An environment in which every external collaborator fails; scenario
environments below override the fields a scenario relies on. -/
def errEnv : Env where
  listMessages := .error "unused"
  getMessage := fun _ => .error "get failed"
  getAttachment := fun _ _ => .error "attachment fetch failed"
  batchModify := fun _ => .ok ()
  decodeB64 := fun _ => .error "illegal base64 data"
  writerGen := fun _ => .error "no sink"
  write := fun _ _ => some "write failed"

/-! ### Claims -/

/-- **C3.** For every matched part, the resolver issues exactly one remote
attachment fetch and uses the data that fetch returns when the part's body
reference carries a non-empty remote attachment identifier, and issues zero
remote fetches and uses the part's own inline data unchanged when the
identifier is empty. -/
theorem c3_resolver_fetch_policy (env : Env) (msg : Message) (body : MessagePartBody) :
    (body.attachmentId ≠ "" →
      retrieveAttachment env msg body =
        (env.getAttachment msg.id body.attachmentId,
         [Call.getAtt msg.id body.attachmentId]))
    ∧ (body.attachmentId = "" →
      retrieveAttachment env msg body = (.ok body, [])) := by
  constructor <;> intro h <;> simp [retrieveAttachment, h]

/-- Witness for C3 at concrete inputs: one fetch for attachment id `"A1"`,
no fetch for an inline body. -/
theorem c3_resolver_fetch_policy_witness :
    retrieveAttachment errEnv ⟨"M1", "", none⟩ ⟨"A1", "d"⟩ =
      (errEnv.getAttachment "M1" "A1", [Call.getAtt "M1" "A1"]) ∧
    retrieveAttachment errEnv ⟨"M1", "", none⟩ ⟨"", "d"⟩ =
      (.ok ⟨"", "d"⟩, []) :=
  ⟨(c3_resolver_fetch_policy errEnv ⟨"M1", "", none⟩ ⟨"A1", "d"⟩).1 (by decide),
   (c3_resolver_fetch_policy errEnv ⟨"M1", "", none⟩ ⟨"", "d"⟩).2 rfl⟩

/-- **C8.** The bulk release operation visits every attachment's resource
exactly once, attempts to close each closable resource even after an earlier
close fails, and returns the first close error encountered (`none` if no
close fails or no resource is closable): the close trace is exactly the
ordered list of closable handles, and the returned error is the head of the
list of close errors of closable attachments. -/
theorem c8_close_first_error_all_visited (ats : ProcessedAttachments) :
    ProcessedAttachments.Close ats =
      (((ats.filter fun a => a.body.closable).filterMap fun a => a.body.closeErr).head?,
       (ats.filter fun a => a.body.closable).map fun a => a.body.handleId) := by
  rw [Prod.ext_iff]
  refine ⟨closeFoldl_err_none ats [], ?_⟩
  simpa using closeFoldl_trace ats none []

/-- **C10.** `retrieveMessageAttachments` returns a non-nil error only when
the root part itself has content type `application/pdf` and its attachment
fetch fails; for a non-matching root the error is always nil and the result
concatenates, in order, the matches of exactly those child subtrees that
themselves returned a nil error (a failing subtree's matches are dropped). -/
theorem c10_error_only_at_root (env : Env) (msg : Message) (root : MessagePart) :
    ((retrieveMessageAttachmentsPart env msg root).1.2 ≠ none ↔
       root.mimeType = "application/pdf" ∧
         isOkB (retrieveAttachment env msg root.body).1 = false)
    ∧ (root.mimeType ≠ "application/pdf" →
        (retrieveMessageAttachmentsPart env msg root).1.2 = none ∧
          (retrieveMessageAttachmentsPart env msg root).1.1 =
            (root.parts.map fun c =>
              if (retrieveMessageAttachmentsPart env msg c).1.2 = none
              then (retrieveMessageAttachmentsPart env msg c).1.1 else []).flatten) := by
  cases root with
  | mk mt fn pid b children =>
    by_cases hmt : mt = "application/pdf"
    · subst hmt
      constructor
      · rcases h : (retrieveAttachment env msg b).1 with e | b2 <;>
          simp [retrieveMessageAttachmentsPart, h, isOkB,
            MessagePart.mimeType, MessagePart.body]
      · intro hne
        simp [MessagePart.mimeType] at hne
    · refine ⟨?_, fun _ => ?_⟩
      · simp [retrieveMessageAttachmentsPart, hmt, MessagePart.mimeType,
          MessagePart.body]
      · refine ⟨?_, ?_⟩
        · simp [retrieveMessageAttachmentsPart, hmt]
        · simp [retrieveMessageAttachmentsPart, hmt, MessagePart.parts,
            retrieveMessageAttachmentsList_eq_join]

/-- Witness for C10 at a concrete input: a `multipart/mixed` root with one
`application/pdf` child whose remote fetch fails — the call returns a nil
error and drops the failing subtree's match. -/
theorem c10_error_only_at_root_witness :
    ((retrieveMessageAttachmentsPart errEnv ⟨"M1", "", none⟩
        (.mk "multipart/mixed" "" "0" ⟨"", ""⟩
          [.mk "application/pdf" "doc" "0.1" ⟨"A1", ""⟩ []])).1.2 ≠ none ↔
       (MessagePart.mk "multipart/mixed" "" "0" ⟨"", ""⟩
          [.mk "application/pdf" "doc" "0.1" ⟨"A1", ""⟩ []]).mimeType = "application/pdf" ∧
         isOkB (retrieveAttachment errEnv ⟨"M1", "", none⟩
           (MessagePart.mk "multipart/mixed" "" "0" ⟨"", ""⟩
             [.mk "application/pdf" "doc" "0.1" ⟨"A1", ""⟩ []]).body).1 = false)
    ∧ ((MessagePart.mk "multipart/mixed" "" "0" ⟨"", ""⟩
          [.mk "application/pdf" "doc" "0.1" ⟨"A1", ""⟩ []]).mimeType ≠ "application/pdf" →
        (retrieveMessageAttachmentsPart errEnv ⟨"M1", "", none⟩
            (.mk "multipart/mixed" "" "0" ⟨"", ""⟩
              [.mk "application/pdf" "doc" "0.1" ⟨"A1", ""⟩ []])).1.2 = none ∧
          (retrieveMessageAttachmentsPart errEnv ⟨"M1", "", none⟩
              (.mk "multipart/mixed" "" "0" ⟨"", ""⟩
                [.mk "application/pdf" "doc" "0.1" ⟨"A1", ""⟩ []])).1.1 =
            ((MessagePart.mk "multipart/mixed" "" "0" ⟨"", ""⟩
                [.mk "application/pdf" "doc" "0.1" ⟨"A1", ""⟩ []]).parts.map fun c =>
              if (retrieveMessageAttachmentsPart errEnv ⟨"M1", "", none⟩ c).1.2 = none
              then (retrieveMessageAttachmentsPart errEnv ⟨"M1", "", none⟩ c).1.1
              else []).flatten) :=
  c10_error_only_at_root errEnv ⟨"M1", "", none⟩
    (.mk "multipart/mixed" "" "0" ⟨"", ""⟩
      [.mk "application/pdf" "doc" "0.1" ⟨"A1", ""⟩ []])

/-- Scenario for C1: one listed message `M1` whose tree is a
`multipart/mixed` root with a single `application/pdf` child that needs a
remote fetch, and the attachment fetch fails. -/
def c1Root : MessagePart :=
  .mk "multipart/mixed" "" "0" ⟨"", ""⟩
    [.mk "application/pdf" "statement" "0.1" ⟨"A1", ""⟩ []]

/-- The message of the C1 scenario. -/
def c1Msg : Message := ⟨"M1", "", some c1Root⟩

/-- Environment of the C1 scenario: the listing returns `c1Msg` and every
attachment fetch fails. -/
def c1Env : Env := { errEnv with listMessages := .ok [c1Msg] }

/-- **C1** fails on the code: in the C1 scenario the tree contains exactly
one matched part (`"0.1"`), its resolve fails, and yet the run issues the
mark-read mutation for `M1` (the failing subtree's error is swallowed by
`retrieveMessageAttachments`, so `M1` lands in `processedMsgs`).  The claim
requires `M1` to be excluded from the mark-read set. -/
theorem c1_resolve_failure_still_marked_read :
    ProcessPDFAttachments c1Env true =
      .done [] none [.listMsgs, .getMsg "M1", .getAtt "M1" "A1", .batchModify ["M1"]]
    ∧ (specMatches "application/pdf" c1Root).map (fun x => x.2.partId) = ["0.1"]
    ∧ isOkB (retrieveAttachment c1Env c1Msg ⟨"A1", ""⟩).1 = false := by
  decide

/-- Scenario for C4: the listing returns a summary (`payload` nil) and the
full-message fetch fails. -/
def c4Env : Env := { errEnv with listMessages := .ok [⟨"M1", "", none⟩] }

/-- **C4** fails on the code: for a listed message with an absent part tree
whose full fetch fails, the claim says the message is skipped entirely; the
code instead passes the nil payload to `retrieveMessageAttachments`, which
dereferences it (`part.MimeType`) — a nil-pointer panic, not a skip. -/
theorem c4_absent_tree_fetch_failure_panics :
    ProcessPDFAttachments c4Env true = .nilDeref [.listMsgs, .getMsg "M1"]
    ∧ isOkB (c4Env.getMessage "M1") = false := by
  decide

/-- Scenario for C6: one message with a single inline `application/pdf`
part that decodes and writes successfully, and a failing batch mark-read
mutation. -/
def c6Env : Env :=
  { errEnv with
    listMessages := .ok [⟨"M1", "", some (.mk "application/pdf" "doc" "0" ⟨"", "SGVsbG8="⟩ [])⟩]
    batchModify := fun _ => .error "batch modify failed"
    decodeB64 := fun s => if s = "SGVsbG8=" then .ok [72, 101, 108, 108, 111] else .error "bad"
    writerGen := fun _ => .ok ⟨7, true, none⟩
    write := fun _ _ => none }

/-- **C6** fails on the code: the batch mark-read mutation fails
(`batchModify` returns an error), yet `ProcessPDFAttachments` returns a nil
whole-run error — the source discards `markAsRead`'s return value.  The
already-processed attachment is indeed still returned. -/
theorem c6_markread_failure_not_reported :
    ProcessPDFAttachments c6Env true =
      .done [⟨⟨7, true, none⟩, "doc-M1-0.pdf"⟩] none
        [.listMsgs, .getMsg "M1", .batchModify ["M1"]]
    ∧ c6Env.batchModify ["M1"] = .error "batch modify failed" :=
  ⟨by decide, rfl⟩

/-- Scenario for C7: an empty listing result. -/
def c7Env : Env := { errEnv with listMessages := .ok [] }

/-- **C7** fails on the code: with an empty set of fully-succeeded messages
(here: an empty listing) and `markRead = true`, the code still issues the
`BatchModify` mutation, with an empty identifier list — the claim says no
mutation call is issued.  (The run does complete without error.) -/
theorem c7_empty_set_still_issues_mutation :
    ProcessPDFAttachments c7Env true = .done [] none [.listMsgs, .batchModify []] := by
  decide

/-- Scenario for C9: the listing returns a summary (`payload` nil), and the
full-message fetch succeeds, returning a hydrated message whose tree is a
single inline `application/pdf` part. -/
def c9Env : Env :=
  { errEnv with
    listMessages := .ok [⟨"M1", "", none⟩]
    getMessage := fun mid =>
      .ok ⟨mid, "snippet", some (.mk "application/pdf" "doc" "0" ⟨"", "SGVsbG8="⟩ [])⟩
    decodeB64 := fun _ => .ok [72]
    writerGen := fun _ => .ok ⟨7, true, none⟩
    write := fun _ _ => none }

/-- **C9** fails on the code: the full-message fetch succeeds and returns a
part tree, but the `if msg, err := ...` statement shadows the loop variable,
so extraction still runs on the original summary; its nil payload is then
dereferenced.  The claim says extraction uses the hydrated value and a nil
payload never causes a nil-pointer dereference. -/
theorem c9_hydrated_message_dropped_nil_deref :
    ProcessPDFAttachments c9Env true = .nilDeref [.listMsgs, .getMsg "M1"]
    ∧ isOkB (c9Env.getMessage "M1") = true := by
  decide

/-- Splitting a list at an element that occurs in neither right part is
unique: if `a₁ ++ s :: b₁ = a₂ ++ s :: b₂` and `s` occurs in neither `b₁`
nor `b₂`, the two splits coincide. -/
theorem splitAtLastSep {α : Type} (s : α) :
    ∀ a₁ a₂ b₁ b₂ : List α, s ∉ b₁ → s ∉ b₂ →
      a₁ ++ s :: b₁ = a₂ ++ s :: b₂ → a₁ = a₂ ∧ b₁ = b₂ := by
  intro a₁
  induction a₁ with
  | nil =>
    intro a₂ b₁ b₂ hb₁ hb₂ h
    cases a₂ with
    | nil => simpa using h
    | cons c a₂' =>
      exfalso
      simp only [List.nil_append, List.cons_append, List.cons.injEq] at h
      exact hb₁ (h.2 ▸ List.mem_append_right _ (List.mem_cons_self _ _))
  | cons c a₁' ih =>
    intro a₂ b₁ b₂ hb₁ hb₂ h
    cases a₂ with
    | nil =>
      exfalso
      simp only [List.nil_append, List.cons_append, List.cons.injEq] at h
      exact hb₂ (h.2.symm ▸ List.mem_append_right _ (List.mem_cons_self _ _))
    | cons d a₂' =>
      simp only [List.cons_append, List.cons.injEq] at h
      obtain ⟨rfl, h⟩ := h
      obtain ⟨h₁, h₂⟩ := ih a₂' b₁ b₂ hb₁ hb₂ h
      exact ⟨by rw [h₁], h₂⟩

/-- The character list underlying a synthesized filename, grouped at the
last `'-'` separator. -/
theorem constructFilename_data (part : MessagePart) (msg : Message) :
    (constructFilename part msg).data =
      (part.filename.data ++ '-' :: msg.id.data) ++
        '-' :: (part.partId.data ++ ['.', 'p', 'd', 'f']) := by
  simp [constructFilename, String.data_append]

/-- **C5, counterexample.** Filename synthesis is *not* injective on
distinct (message id, part id) pairs: a `'-'` inside the message identifier
can shift the separator, so `("a-b", "m", "p")` and `("a", "b-m", "p")`
synthesize the same filename even though the (message id, part id) pairs
differ. -/
theorem c5_filename_collision :
    constructFilename (.mk "application/pdf" "a-b" "p" ⟨"", ""⟩ []) ⟨"m", "", none⟩ =
      constructFilename (.mk "application/pdf" "a" "p" ⟨"", ""⟩ []) ⟨"b-m", "", none⟩
    ∧ ((Message.mk "m" "" none).id, (MessagePart.mk "application/pdf" "a-b" "p" ⟨"", ""⟩ []).partId) ≠
      ((Message.mk "b-m" "" none).id, (MessagePart.mk "application/pdf" "a" "p" ⟨"", ""⟩ []).partId) := by
  constructor
  · rfl
  · intro h
    simp [MessagePart.partId, Message.id] at h

/-- **C5, amended.** Under the additional precondition that the message
identifiers and part identifiers contain no `'-'` character, filename
synthesis is injective across (part, message) pairs with distinct
(message id, part id) pairs, even when the original filenames collide. -/
theorem c5_filename_injective_hyphen_free_ids
    (p₁ p₂ : MessagePart) (m₁ m₂ : Message)
    (hm₁ : '-' ∉ m₁.id.data) (hm₂ : '-' ∉ m₂.id.data)
    (hp₁ : '-' ∉ p₁.partId.data) (hp₂ : '-' ∉ p₂.partId.data)
    (hne : (m₁.id, p₁.partId) ≠ (m₂.id, p₂.partId)) :
    constructFilename p₁ m₁ ≠ constructFilename p₂ m₂ := by
  intro heq
  have hd := congrArg String.data heq
  rw [constructFilename_data, constructFilename_data] at hd
  have hb₁ : '-' ∉ p₁.partId.data ++ ['.', 'p', 'd', 'f'] := by
    intro h
    rcases List.mem_append.1 h with h | h
    · exact hp₁ h
    · simp at h
  have hb₂ : '-' ∉ p₂.partId.data ++ ['.', 'p', 'd', 'f'] := by
    intro h
    rcases List.mem_append.1 h with h | h
    · exact hp₂ h
    · simp at h
  obtain ⟨hfm, hq⟩ := splitAtLastSep '-' _ _ _ _ hb₁ hb₂ hd
  have hq' : p₁.partId = p₂.partId :=
    String.ext (List.append_cancel_right hq)
  obtain ⟨_, hm⟩ := splitAtLastSep '-' _ _ _ _ hm₁ hm₂ hfm
  exact hne (by rw [String.ext hm, hq'])

/-- Witness for the amended C5 at concrete inputs: two parts with the same
original filename but distinct part identifiers on the same message yield
distinct filenames. -/
theorem c5_filename_injective_witness :
    ('-' ∉ ("m1" : String).data) ∧ ('-' ∉ ("1" : String).data) ∧ ('-' ∉ ("2" : String).data) ∧
    constructFilename (.mk "application/pdf" "report" "1" ⟨"", ""⟩ []) ⟨"m1", "", none⟩ ≠
      constructFilename (.mk "application/pdf" "report" "2" ⟨"", ""⟩ []) ⟨"m1", "", none⟩ :=
  ⟨by decide, by decide, by decide,
   c5_filename_injective_hyphen_free_ids
     (.mk "application/pdf" "report" "1" ⟨"", ""⟩ [])
     (.mk "application/pdf" "report" "2" ⟨"", ""⟩ [])
     ⟨"m1", "", none⟩ ⟨"m1", "", none⟩
     (by decide) (by decide) (by decide) (by decide)
     (by intro h; exact absurd (congrArg (fun x => x.2.data) h) (by decide))⟩

/-! ### Structure of the specification-side match list (for C2) -/

/-- Dropping the path tags, the matches of a forest are the concatenation of
the matches of its trees, whatever the starting child index. -/
theorem specMatchesFrom_snd (t : String) :
    ∀ (cs : List MessagePart) (i : Nat),
      (specMatchesFrom t i cs).map Prod.snd =
        (cs.map fun c => (specMatches t c).map Prod.snd).flatten := by
  intro cs
  induction cs with
  | nil => intro i; simp [specMatchesFrom]
  | cons c cs ih =>
    intro i
    simp [specMatchesFrom, ih, List.map_map]

/-- Every path produced for a forest starting at child index `i` begins with
some index `≥ i`. -/
theorem specMatchesFrom_head (t : String) :
    ∀ (cs : List MessagePart) (i : Nat) (x : List Nat × MessagePart),
      x ∈ specMatchesFrom t i cs → ∃ j π, x.1 = j :: π ∧ i ≤ j := by
  intro cs
  induction cs with
  | nil => intro i x hx; simp [specMatchesFrom] at hx
  | cons c cs ih =>
    intro i x hx
    simp only [specMatchesFrom, List.mem_append, List.mem_map] at hx
    rcases hx with ⟨y, _, rfl⟩ | hx
    · exact ⟨i, y.1, rfl, le_refl i⟩
    · obtain ⟨j, π, hj, hij⟩ := ih (i + 1) x hx
      exact ⟨j, π, hj, by omega⟩

/-- `PreOrder` is preserved by prepending a common head index. -/
theorem PreOrder.consLift (i : Nat) (π₁ π₂ : List Nat) (h : PreOrder π₁ π₂) :
    PreOrder (i :: π₁) (i :: π₂) := by
  refine ⟨List.Lex.cons h.1, fun hp => ?_⟩
  exact h.2 (List.cons_prefix_cons.1 hp).2

/-- A strictly smaller head index gives `PreOrder` outright. -/
theorem PreOrder.headLt (i j : Nat) (π₁ π₂ : List Nat) (h : i < j) :
    PreOrder (i :: π₁) (j :: π₂) := by
  refine ⟨List.Lex.rel h, fun hp => ?_⟩
  exact absurd (List.cons_prefix_cons.1 hp).1 (by omega)

/-- The paths of a forest's matches are pairwise in pre-order, provided each
tree's are. -/
theorem specMatchesFrom_pairwise (t : String) (cs : List MessagePart)
    (ihc : ∀ c ∈ cs, ((specMatches t c).map Prod.fst).Pairwise PreOrder) :
    ∀ i, ((specMatchesFrom t i cs).map Prod.fst).Pairwise PreOrder := by
  induction cs with
  | nil => intro i; simp [specMatchesFrom]
  | cons c cs ih =>
    intro i
    have hc := ihc c (List.mem_cons_self c cs)
    have hrest := ih (fun d hd => ihc d (List.mem_cons_of_mem _ hd)) (i + 1)
    simp only [specMatchesFrom, List.map_append, List.pairwise_append]
    refine ⟨?_, hrest, ?_⟩
    · simp only [List.map_map, List.pairwise_map]
      rw [List.pairwise_map] at hc
      exact hc.imp (fun h => PreOrder.consLift i _ _ h)
    · intro a ha b hb
      simp only [List.map_map, List.mem_map, Function.comp] at ha
      obtain ⟨y, _, rfl⟩ := ha
      simp only [List.mem_map] at hb
      obtain ⟨x, hx, rfl⟩ := hb
      obtain ⟨j, π, hj, hij⟩ := specMatchesFrom_head t cs (i + 1) x hx
      rw [hj]
      exact PreOrder.headLt i j _ _ (by omega)

/-- Every path of the match list is pairwise pre-ordered: strictly
lexicographically increasing and prefix-free. -/
theorem specMatches_pairwise (t : String) :
    ∀ p : MessagePart, ((specMatches t p).map Prod.fst).Pairwise PreOrder := by
  intro p
  induction p using MessagePart.inductionOn with
  | h mt fn pid b children ih =>
    by_cases hmt : mt = t
    · simp [specMatches, hmt]
    · simp only [specMatches, hmt, if_false]
      exact specMatchesFrom_pairwise t children ih 0

/-- Every match of a forest is located by its path: the path's head selects
the child (shifted by the starting index `i`), and the rest locates the
match inside it. -/
theorem specMatchesFrom_subtree (t : String) (cs : List MessagePart)
    (ihc : ∀ c ∈ cs, ∀ x ∈ specMatches t c,
      subtreeAt c x.1 = some x.2 ∧ x.2.mimeType = t) :
    ∀ i x, x ∈ specMatchesFrom t i cs →
      ∃ j π c, x.1 = (i + j) :: π ∧ cs[j]? = some c ∧
        subtreeAt c π = some x.2 ∧ x.2.mimeType = t := by
  induction cs with
  | nil => intro i x hx; simp [specMatchesFrom] at hx
  | cons c cs ih =>
    intro i x hx
    simp only [specMatchesFrom, List.mem_append, List.mem_map] at hx
    rcases hx with ⟨y, hy, rfl⟩ | hx
    · obtain ⟨hsub, hmt⟩ := ihc c (List.mem_cons_self c cs) y hy
      exact ⟨0, y.1, c, by simp, by simp, hsub, hmt⟩
    · obtain ⟨j, π, c', hj, hc', hsub, hmt⟩ :=
        ih (fun d hd => ihc d (List.mem_cons_of_mem _ hd)) (i + 1) x hx
      refine ⟨j + 1, π, c', ?_, by simpa using hc', hsub, hmt⟩
      rw [hj]
      congr 1
      omega

/-- Every match of a tree is the subtree at its path, and its content type
is the target. -/
theorem specMatches_subtree (t : String) :
    ∀ p : MessagePart, ∀ x ∈ specMatches t p,
      subtreeAt p x.1 = some x.2 ∧ x.2.mimeType = t := by
  intro p
  induction p using MessagePart.inductionOn with
  | h mt fn pid b children ih =>
    intro x hx
    by_cases hmt : mt = t
    · subst hmt
      simp only [specMatches, if_true, List.mem_singleton] at hx
      subst hx
      exact ⟨rfl, rfl⟩
    · simp only [specMatches, hmt, if_false] at hx
      obtain ⟨j, π, c, hj, hc, hsub, hmtx⟩ := specMatchesFrom_subtree t children ih 0 x hx
      refine ⟨?_, hmtx⟩
      rw [hj, Nat.zero_add]
      simp [subtreeAt, hc, hsub]

/-- When every match of a forest resolves successfully, the walker's loop
returns exactly the forest's matches in order, each with its body resolved. -/
theorem rmaList_eq_specMatchesFrom (env : Env) (msg : Message) (cs : List MessagePart)
    (ihc : ∀ c ∈ cs, (∀ x ∈ specMatches "application/pdf" c,
        isOkB (retrieveAttachment env msg x.2.body).1 = true) →
      (retrieveMessageAttachmentsPart env msg c).1 =
        ((specMatches "application/pdf" c).map fun x => resolvePart env msg x.2, none)) :
    ∀ i, (∀ x ∈ specMatchesFrom "application/pdf" i cs,
        isOkB (retrieveAttachment env msg x.2.body).1 = true) →
      (retrieveMessageAttachmentsList env msg cs).1 =
        (specMatchesFrom "application/pdf" i cs).map fun x => resolvePart env msg x.2 := by
  induction cs with
  | nil => intro i h; simp [retrieveMessageAttachmentsList, specMatchesFrom]
  | cons c cs ih =>
    intro i h
    have hc : ∀ x ∈ specMatches "application/pdf" c,
        isOkB (retrieveAttachment env msg x.2.body).1 = true := by
      intro x hx
      have : ((i :: x.1, x.2) : List Nat × MessagePart) ∈
          specMatchesFrom "application/pdf" i (c :: cs) := by
        simp only [specMatchesFrom, List.mem_append, List.mem_map]
        exact Or.inl ⟨x, hx, rfl⟩
      exact h (i :: x.1, x.2) this
    have hcr := ihc c (List.mem_cons_self c cs) hc
    have hrest := ih (fun d hd => ihc d (List.mem_cons_of_mem _ hd)) (i + 1)
      (fun x hx => h x (by
        simp only [specMatchesFrom, List.mem_append]
        exact Or.inr hx))
    simp only [retrieveMessageAttachmentsList, hcr, hrest, specMatchesFrom,
      List.map_append, List.map_map]
    simp [Function.comp]

/-- When every matched part of a tree resolves successfully, the code's
walker returns exactly the spec's pre-order match list (bodies resolved)
with a nil error. -/
theorem rmaPart_eq_specMatches (env : Env) (msg : Message) :
    ∀ root : MessagePart, (∀ x ∈ specMatches "application/pdf" root,
        isOkB (retrieveAttachment env msg x.2.body).1 = true) →
      (retrieveMessageAttachmentsPart env msg root).1 =
        ((specMatches "application/pdf" root).map fun x => resolvePart env msg x.2,
         none) := by
  intro root
  induction root using MessagePart.inductionOn with
  | h mt fn pid b children ih =>
    intro h
    by_cases hmt : mt = "application/pdf"
    · subst hmt
      have hb : isOkB (retrieveAttachment env msg b).1 = true := by
        have := h ([], .mk "application/pdf" fn pid b children) (by simp [specMatches])
        simpa [MessagePart.body] using this
      rcases hok : (retrieveAttachment env msg b).1 with e | b2
      · rw [hok] at hb
        simp [isOkB] at hb
      · simp [retrieveMessageAttachmentsPart, hok, specMatches, resolvePart,
          MessagePart.body]
    · simp only [specMatches, hmt, if_false] at h ⊢
      have := rmaList_eq_specMatchesFrom env msg children ih 0 h
      simp [retrieveMessageAttachmentsPart, hmt, this]

/-- **C2.** For every part tree and the target content type
`application/pdf`, when every matched part resolves, the walker returns
exactly the matching parts in pre-order, depth-first, left-to-right order
over the ordered child sequences (the spec-side `specMatches` list, with
bodies resolved) with a nil error; the match paths are strictly
lexicographically increasing and prefix-free, so a matching part is never
itself descended into and no returned part is a descendant of another
returned part; and every match is the subtree at its path with content type
`application/pdf`. -/
theorem c2_walker_preorder_no_descendants (env : Env) (msg : Message) (root : MessagePart)
    (hres : ∀ x ∈ specMatches "application/pdf" root,
      isOkB (retrieveAttachment env msg x.2.body).1 = true) :
    (retrieveMessageAttachmentsPart env msg root).1.1 =
        ((specMatches "application/pdf" root).map fun x => resolvePart env msg x.2)
    ∧ (retrieveMessageAttachmentsPart env msg root).1.2 = none
    ∧ ((specMatches "application/pdf" root).map Prod.fst).Pairwise PreOrder
    ∧ ∀ x ∈ specMatches "application/pdf" root,
        subtreeAt root x.1 = some x.2 ∧ x.2.mimeType = "application/pdf" := by
  have h := rmaPart_eq_specMatches env msg root hres
  exact ⟨congrArg Prod.fst h, congrArg Prod.snd h,
    specMatches_pairwise _ root, specMatches_subtree _ root⟩

/-- The tree of the C2 witness: a `multipart/mixed` root holding a
`text/plain` part, an `application/pdf` part requiring a remote fetch, and a
nested `multipart/alternative` with an inline `application/pdf` part. -/
def c2Tree : MessagePart :=
  .mk "multipart/mixed" "" "0" ⟨"", ""⟩
    [ .mk "text/plain" "" "0.0" ⟨"", "dGV4dA=="⟩ [],
      .mk "application/pdf" "doc" "0.1" ⟨"A1", ""⟩ [],
      .mk "multipart/alternative" "" "0.2" ⟨"", ""⟩
        [ .mk "application/pdf" "doc2" "0.2.0" ⟨"", "SGVsbG8="⟩ [] ] ]

/-- Environment of the C2 witness: every remote attachment fetch succeeds. -/
def c2Env : Env := { errEnv with getAttachment := fun _ _ => .ok ⟨"", "QUJD"⟩ }

/-- Message owning the C2 witness tree. -/
def c2Msg : Message := ⟨"M1", "", some c2Tree⟩

/-- Witness for C2 at a concrete tree on which every resolve succeeds. -/
theorem c2_walker_preorder_witness :
    (retrieveMessageAttachmentsPart c2Env c2Msg c2Tree).1.1 =
        ((specMatches "application/pdf" c2Tree).map fun x => resolvePart c2Env c2Msg x.2)
    ∧ (retrieveMessageAttachmentsPart c2Env c2Msg c2Tree).1.2 = none
    ∧ ((specMatches "application/pdf" c2Tree).map Prod.fst).Pairwise PreOrder
    ∧ ∀ x ∈ specMatches "application/pdf" c2Tree,
        subtreeAt c2Tree x.1 = some x.2 ∧ x.2.mimeType = "application/pdf" :=
  c2_walker_preorder_no_descendants c2Env c2Msg c2Tree (by decide)
